import Mathlib

/-!
Verification of the direct-I/O chunked writer prototype (`src/main.rs`).

The development shallowly embeds the per-chunk byte pipeline of the writers
(slice → stage → write → truncate), the page-aligned buffer state machine,
the fallible-operation trace of the direct writer, the compare-mode verifier
loop, and the store-key-to-filesystem-path mapping.  Machine integers are
modelled as `Nat` (all quantities involved are non-negative and no wrapping
arithmetic occurs in the modelled code); file contents and buffers are lists
of byte values.
-/

namespace DioProto

/-- Rust `usize::next_multiple_of`: the least multiple of `m` at or above `n`
(the source only calls it with `m = page_size::get() > 0`). -/
def nextMultipleOf (n m : Nat) : Nat :=
  if n % m = 0 then n else n + (m - n % m)

/-- Array and chunking configuration of `main.rs`: shape `[nFrames, side, side]`,
chunk shape `[chunk, side, side]` (dimensions 1–2 chunked at full extent),
`u16` elements, and the runtime page size (`page_size::get()`). -/
structure Config where
  nFrames : Nat
  side : Nat
  chunk : Nat
  pageSize : Nat
deriving DecidableEq

/-- The concrete constants of `main.rs`: `SHAPE = [65536, 512, 512]`, `CHUNK = 16`. -/
def mainConfig (pageSize : Nat) : Config :=
  { nFrames := 65536, side := 512, chunk := 16, pageSize := pageSize }

/-- Number of chunk files written: the loop bound `65536 / CHUNK`. -/
def Config.numChunks (cfg : Config) : Nat := cfg.nFrames / cfg.chunk

/-- Source `cutoff = SIDE * SIDE * CHUNK as u64 * size_of::<u16>()`: the logical byte
length of one chunk. -/
def Config.cutoff (cfg : Config) : Nat := cfg.side * cfg.side * cfg.chunk * 2

/-- The two bytes of a `u16` value in little-endian order (what both zerocopy
`as_bytes` on the target platform and the collaborator's default `bytes` codec
produce). -/
def u16Bytes (v : Nat) : List Nat := [v % 256, v / 256 % 256]

/-- A source array is a map from plane index to the plane's row-major `u16`
elements; a well-formed array has `side * side` elements per plane (this is
structural for `Array3<u16>` in the source). -/
def WFData (cfg : Config) (data : Nat → List Nat) : Prop :=
  ∀ j, (data j).length = cfg.side * cfg.side

/-- Source `input_data.slice_axis(Axis(0), Slice::from(i..i + CHUNK)).as_slice()`:
the flattened elements of planes `i, i+1, …, i+chunk-1`.  Note the slice starts
at plane `i`, not at plane `i * chunk`. -/
def chunkElements (cfg : Config) (data : Nat → List Nat) (i : Nat) : List Nat :=
  (List.range cfg.chunk).flatMap (fun j => data (i + j))

/-- Source `slice.as_bytes()`: raw bytes of a `u16` slice. -/
def elementsBytes (es : List Nat) : List Nat := es.flatMap u16Bytes

/-- The raw bytes staged for loop iteration `i` (`data.as_bytes()` of the slice). -/
def sliceBytes (cfg : Config) (data : Nat → List Nat) (i : Nat) : List Nat :=
  elementsBytes (chunkElements cfg data i)

/-- STAGE: `buf.clear(); buf.extend_from_slice(data_bytes);
buf.extend(repeat(0).take(pad_size))` where
`pad_size = data_bytes.len().next_multiple_of(page_size) - data_bytes.len()`. -/
def stagedBuffer (cfg : Config) (data : Nat → List Nat) (i : Nat) : List Nat :=
  let dataBytes := sliceBytes cfg data i
  let padSize := nextMultipleOf dataBytes.length cfg.pageSize - dataBytes.length
  dataBytes ++ List.replicate padSize 0

/-- Effect of `file.set_len(n)` on a file holding `xs`: truncate to `n` bytes, or extend
with zero bytes when the file is shorter than `n`. -/
def setLen (xs : List Nat) (n : Nat) : List Nat :=
  xs.take n ++ List.replicate (n - xs.length) 0

/-- Content of the chunk file produced by `write_direct_io` loop iteration `i`:
open with `truncate(true)` (empty file), one `write_all` of the staged buffer,
then `set_len(cutoff)`. -/
def directChunkFile (cfg : Config) (data : Nat → List Nat) (i : Nat) : List Nat :=
  setLen (stagedBuffer cfg data i) cfg.cutoff

/-- Content of the chunk file produced by `write_buffered_io` loop iteration `i`:
`store_chunk_elements(&[i, 0, 0], inp_slice)` through the collaborator's default
uncompressed `bytes` codec. -/
def bufferedChunkFile (cfg : Config) (data : Nat → List Nat) (i : Nat) : List Nat :=
  sliceBytes cfg data i

/-- The direct store after the run: the loop writes chunk key `[i, 0, 0]` for
every `i < nFrames / chunk`. -/
def directStore (cfg : Config) (data : Nat → List Nat) (c : Nat) : Option (List Nat) :=
  if c < cfg.numChunks then some (directChunkFile cfg data c) else none

/-- The buffered store after the run (same loop structure). -/
def bufferedStore (cfg : Config) (data : Nat → List Nat) (c : Nat) : Option (List Nat) :=
  if c < cfg.numChunks then some (bufferedChunkFile cfg data c) else none

/-- Collaborator read API on the full region of chunk `c`: decodes the chunk
file (raw codec, so the file's bytes themselves). -/
def readChunk (store : Nat → Option (List Nat)) (c : Nat) : Option (List Nat) :=
  store c

/-- The bytes of the source array's chunk `c` proper: planes
`c * chunk .. (c+1) * chunk` at full extent of dimensions 1–2. -/
def sourceChunkBytes (cfg : Config) (data : Nat → List Nat) (c : Nat) : List Nat :=
  elementsBytes ((List.range cfg.chunk).flatMap (fun j => data (c * cfg.chunk + j)))

/-- Tiny concrete instance used for witnesses: 4 planes of one `u16` each,
chunked by 2, page size 4; plane `j` holds the single value `j`. -/
def cfgTiny : Config := { nFrames := 4, side := 1, chunk := 2, pageSize := 4 }

/-- Tiny source array: plane `j` is the one-element list `[j]`. -/
def dataTiny : Nat → List Nat := fun j => [j]

theorem elementsBytes_length (es : List Nat) : (elementsBytes es).length = 2 * es.length := by
  induction es with
  | nil => rfl
  | cons a es ih =>
    simp only [elementsBytes, List.flatMap_cons, List.length_append] at *
    simp [u16Bytes, ih, Nat.mul_succ, Nat.mul_add, Nat.add_comm]

theorem flatMap_const_length (l : List Nat) (f : Nat → List Nat) (k : Nat)
    (h : ∀ j ∈ l, (f j).length = k) : (l.flatMap f).length = l.length * k := by
  induction l with
  | nil => simp
  | cons a l ih =>
    simp only [List.flatMap_cons, List.length_append, List.length_cons]
    rw [h a (List.mem_cons_self a l), ih (fun j hj => h j (List.mem_cons_of_mem a hj))]
    ring

theorem sliceBytes_length (cfg : Config) (data : Nat → List Nat) (i : Nat)
    (hwf : WFData cfg data) : (sliceBytes cfg data i).length = cfg.cutoff := by
  unfold sliceBytes chunkElements
  rw [elementsBytes_length,
    flatMap_const_length _ _ (cfg.side * cfg.side) (fun j _ => hwf (i + j))]
  simp [Config.cutoff, List.length_range]
  ring

theorem setLen_length (xs : List Nat) (n : Nat) : (setLen xs n).length = n := by
  simp only [setLen, List.length_append, List.length_take, List.length_replicate]
  omega

theorem nextMultipleOf_self_le (n m : Nat) : n ≤ nextMultipleOf n m := by
  unfold nextMultipleOf
  split <;> omega

theorem nextMultipleOf_eq_of_dvd (n m : Nat) (h : n % m = 0) : nextMultipleOf n m = n := by
  simp [nextMultipleOf, h]

/-- C1: the round-trip property fails on the code.  On the tiny instance
(4 planes of one `u16` each, plane `j` holding value `j`, chunk shape `[2,1,1]`),
reading chunk 1 back from the direct store yields the bytes of planes 1–2
(the loop stages `planes i .. i + chunk`), not the bytes of the source array's
chunk 1, which is planes 2–3. -/
theorem direct_roundtrip_chunk1_mismatch :
    readChunk (directStore cfgTiny dataTiny) 1 ≠
      some (sourceChunkBytes cfgTiny dataTiny 1) := by decide

/-- What the direct writer actually stores in chunk `c`: the bytes of planes
`c .. c + chunk` (offset `c`, not `c * chunk`). -/
theorem direct_readback_planes (cfg : Config) (data : Nat → List Nat)
    (hwf : WFData cfg data) (c : Nat) (hc : c < cfg.numChunks) :
    readChunk (directStore cfg data) c = some (sliceBytes cfg data c) := by
  have hlen : (sliceBytes cfg data c).length = cfg.cutoff := sliceBytes_length cfg data c hwf
  simp only [readChunk, directStore, if_pos hc, directChunkFile, stagedBuffer, setLen,
    Option.some.injEq]
  rw [← hlen]
  have h1 : ((sliceBytes cfg data c) ++
      List.replicate (nextMultipleOf (sliceBytes cfg data c).length cfg.pageSize -
        (sliceBytes cfg data c).length) 0).take (sliceBytes cfg data c).length
      = sliceBytes cfg data c := List.take_left _ _
  rw [h1]
  have h2 : (sliceBytes cfg data c).length -
      ((sliceBytes cfg data c) ++
        List.replicate (nextMultipleOf (sliceBytes cfg data c).length cfg.pageSize -
          (sliceBytes cfg data c).length) 0).length = 0 := by
    simp only [List.length_append, List.length_replicate]
    omega
  rw [h2]
  simp

/-- C2: after the per-chunk sequence (in particular after `set_len(cutoff)`),
the chunk file's size is exactly `Π(chunk_shape) × element_width`
(`chunk * side * side * 2` bytes), for every configuration and hence for every
page size (4096, 16384, …). -/
theorem direct_file_size_eq_logical_length (cfg : Config) (data : Nat → List Nat)
    (i : Nat) : (directChunkFile cfg data i).length = cfg.chunk * cfg.side * cfg.side * 2 := by
  unfold directChunkFile
  rw [setLen_length]
  unfold Config.cutoff
  ring

/-- C3: the Compare-mode invariant between the buffered and the direct store.
For every input array and every chunk index, reading the chunk region back from
the store written by `write_buffered_io` and from the store written by
`write_direct_io` yields identical bytes (both loops stage the same slice, and
`set_len(cutoff)` removes exactly the padding the direct path added). -/
theorem buffered_direct_readback_equal (cfg : Config) (data : Nat → List Nat)
    (hwf : WFData cfg data) (c : Nat) (hc : c < cfg.numChunks) :
    readChunk (bufferedStore cfg data) c = readChunk (directStore cfg data) c := by
  rw [direct_readback_planes cfg data hwf c hc]
  simp [readChunk, bufferedStore, if_pos hc, bufferedChunkFile]

/-- Witness for `buffered_direct_readback_equal` at the tiny concrete instance. -/
theorem buffered_direct_readback_equal_witness :
    WFData cfgTiny dataTiny ∧ 1 < cfgTiny.numChunks ∧
      readChunk (bufferedStore cfgTiny dataTiny) 1 = readChunk (directStore cfgTiny dataTiny) 1 :=
  ⟨fun _ => rfl, by decide,
    buffered_direct_readback_equal cfgTiny dataTiny (fun _ => rfl) 1 (by decide)⟩

/-- C4: after STAGE the shared buffer holds exactly the chunk's `cutoff`
(= `logical_length`) raw bytes followed by zero bytes; its total length is
`logical_length` rounded up to the next page-size multiple; and when
`logical_length` is already a page-size multiple, no padding byte is appended
(the buffer is exactly the raw bytes, with no spurious extra page). -/
theorem stage_buffer_layout (cfg : Config) (data : Nat → List Nat) (i : Nat)
    (hwf : WFData cfg data) :
    (stagedBuffer cfg data i).take cfg.cutoff = sliceBytes cfg data i ∧
    (stagedBuffer cfg data i).drop cfg.cutoff =
      List.replicate (nextMultipleOf cfg.cutoff cfg.pageSize - cfg.cutoff) 0 ∧
    (stagedBuffer cfg data i).length = nextMultipleOf cfg.cutoff cfg.pageSize ∧
    (cfg.cutoff % cfg.pageSize = 0 → stagedBuffer cfg data i = sliceBytes cfg data i) := by
  have hlen : (sliceBytes cfg data i).length = cfg.cutoff := sliceBytes_length cfg data i hwf
  have hle : cfg.cutoff ≤ nextMultipleOf cfg.cutoff cfg.pageSize :=
    nextMultipleOf_self_le _ _
  refine ⟨?_, ?_, ?_, ?_⟩
  · simp only [stagedBuffer]
    rw [← hlen, List.take_left]
  · simp only [stagedBuffer, hlen]
    rw [← hlen, List.drop_left]
  · simp only [stagedBuffer, hlen, List.length_append, List.length_replicate]
    omega
  · intro hmod
    simp only [stagedBuffer, hlen, nextMultipleOf_eq_of_dvd _ _ hmod]
    simp

/-- Witness for `stage_buffer_layout` at the tiny concrete instance (whose
`cutoff = 4` is already a multiple of the page size 4, so the padding there is
empty). -/
theorem stage_buffer_layout_witness :
    WFData cfgTiny dataTiny ∧
      ((stagedBuffer cfgTiny dataTiny 1).take cfgTiny.cutoff = sliceBytes cfgTiny dataTiny 1 ∧
      (stagedBuffer cfgTiny dataTiny 1).drop cfgTiny.cutoff =
        List.replicate (nextMultipleOf cfgTiny.cutoff cfgTiny.pageSize - cfgTiny.cutoff) 0 ∧
      (stagedBuffer cfgTiny dataTiny 1).length = nextMultipleOf cfgTiny.cutoff cfgTiny.pageSize ∧
      (cfgTiny.cutoff % cfgTiny.pageSize = 0 →
        stagedBuffer cfgTiny dataTiny 1 = sliceBytes cfgTiny dataTiny 1)) :=
  ⟨fun _ => rfl, stage_buffer_layout cfgTiny dataTiny 1 (fun _ => rfl)⟩

/-- Model of `BytesMut` as the writers use it: start address (`as_ptr`),
capacity, and logical length. -/
structure BytesBuf where
  addr : Nat
  cap : Nat
  len : Nat
deriving DecidableEq

/-- Rust `ptr.align_offset(align)`: the smallest offset that moves `ptr` onto an
`align`-byte boundary (`align = page_size::get()` in the source, always
positive, a power of two, so the well-behaved arithmetic case applies). -/
def alignOffset (p a : Nat) : Nat := (a - p % a) % a

/-- Function `bytes_aligned(size)` from main.rs: `BytesMut::with_capacity(size + align * 2)`
lands at some allocator-chosen address `base` (a parameter here), and
`split_off(base.align_offset(align))` keeps the aligned tail. -/
def bytes_aligned (size base align : Nat) : BytesBuf :=
  { addr := base + alignOffset base align,
    cap := size + align * 2 - alignOffset base align,
    len := 0 }

/-- Method `buf.clear()`: resets the logical length; never moves or reallocates. -/
def BytesBuf.clearBuf (b : BytesBuf) : BytesBuf := { b with len := 0 }

/-- Method `buf.extend_from_slice` of `k` bytes: appends in place while the capacity
suffices; on overflow `BytesMut` reallocates and generally moves to a fresh
address (the parameter `fresh`). -/
def BytesBuf.extendBuf (b : BytesBuf) (k fresh : Nat) : BytesBuf :=
  if b.len + k ≤ b.cap then { b with len := b.len + k }
  else { addr := fresh, cap := b.len + k, len := b.len + k }

/-- One clear-and-refill cycle of the per-chunk loop
(`write_direct_zarrs_manual_encode` lines 124–132: `buf.clear()` then one
`extend_from_slice` of the chunk's `dataLen` bytes). -/
def refillCycle (dataLen fresh : Nat) (b : BytesBuf) : BytesBuf :=
  (b.clearBuf).extendBuf dataLen fresh

/-- The shared buffer after `n` clear/refill cycles of the loop. -/
def cyclesFrom (dataLen : Nat) (fresh : Nat → Nat) (b : BytesBuf) : Nat → BytesBuf
  | 0 => b
  | n + 1 => refillCycle dataLen (fresh n) (cyclesFrom dataLen fresh b n)

theorem alignOffset_lt (p a : Nat) (ha : 0 < a) : alignOffset p a < a :=
  Nat.mod_lt _ ha

theorem addr_add_alignOffset_mod (p a : Nat) (ha : 0 < a) :
    (p + alignOffset p a) % a = 0 := by
  unfold alignOffset
  by_cases h : p % a = 0
  · simp [h, Nat.sub_zero, Nat.mod_self]
  · have h1 : p % a < a := Nat.mod_lt p ha
    have h2 : (a - p % a) % a = a - p % a := Nat.mod_eq_of_lt (by omega)
    rw [h2, Nat.add_mod, h2]
    have h3 : p % a + (a - p % a) = a := by omega
    rw [h3, Nat.mod_self]

/-- Address and capacity are invariant across the cycles: the buffer never
overflows its capacity, so `extend_from_slice` never reallocates. -/
theorem cyclesFrom_addr_cap (size base align dataLen : Nat) (fresh : Nat → Nat)
    (ha : 0 < align) (hd : dataLen ≤ size) :
    ∀ n, (cyclesFrom dataLen fresh (bytes_aligned size base align) n).addr =
        (bytes_aligned size base align).addr ∧
      (cyclesFrom dataLen fresh (bytes_aligned size base align) n).cap =
        (bytes_aligned size base align).cap := by
  intro n
  induction n with
  | zero => exact ⟨rfl, rfl⟩
  | succ n ih =>
    obtain ⟨h1, h2⟩ := ih
    have hoff : alignOffset base align < align := alignOffset_lt base align ha
    have hcap : dataLen ≤ (cyclesFrom dataLen fresh (bytes_aligned size base align) n).cap := by
      rw [h2]
      simp only [bytes_aligned]
      omega
    simp only [cyclesFrom, refillCycle, BytesBuf.clearBuf, BytesBuf.extendBuf, Nat.zero_add,
      if_pos hcap]
    exact ⟨h1, h2⟩

/-- C5: the shared buffer's start address is a page-size multiple immediately
after `bytes_aligned` and after every clear/refill cycle; indeed the address
never changes across cycles, so the three in-loop alignment assertions
(before `clear`, after `clear`, after the refill) hold on every iteration. -/
theorem buffer_alignment_invariant (size base align dataLen : Nat) (fresh : Nat → Nat)
    (ha : 0 < align) (hd : dataLen ≤ size) (n : Nat) :
    (bytes_aligned size base align).addr % align = 0 ∧
    (cyclesFrom dataLen fresh (bytes_aligned size base align) n).addr =
      (bytes_aligned size base align).addr ∧
    (cyclesFrom dataLen fresh (bytes_aligned size base align) n).addr % align = 0 ∧
    ((cyclesFrom dataLen fresh (bytes_aligned size base align) n).clearBuf).addr % align = 0 := by
  have h0 : (bytes_aligned size base align).addr % align = 0 :=
    addr_add_alignOffset_mod base align ha
  obtain ⟨h1, _⟩ := cyclesFrom_addr_cap size base align dataLen fresh ha hd n
  exact ⟨h0, h1, by rw [h1]; exact h0, by simp only [BytesBuf.clearBuf]; rw [h1]; exact h0⟩

/-- Witness for `buffer_alignment_invariant`: page size 4, allocation at the
unaligned base address 3, requested size 8, refills of 8 bytes, 3 cycles. -/
theorem buffer_alignment_invariant_witness :
    0 < 4 ∧ 8 ≤ 8 ∧
    ((bytes_aligned 8 3 4).addr % 4 = 0 ∧
      (cyclesFrom 8 (fun _ => 999) (bytes_aligned 8 3 4) 3).addr = (bytes_aligned 8 3 4).addr ∧
      (cyclesFrom 8 (fun _ => 999) (bytes_aligned 8 3 4) 3).addr % 4 = 0 ∧
      ((cyclesFrom 8 (fun _ => 999) (bytes_aligned 8 3 4) 3).clearBuf).addr % 4 = 0) :=
  ⟨by decide, by decide,
    buffer_alignment_invariant 8 3 4 8 (fun _ => 999) (by decide) (by decide) 3⟩

/-- C6 counterexample: for requested size 512 with page size 4096 at an already
aligned base address, the returned capacity is `512 + 2·4096 = 8704`, which is
neither a page-size multiple nor the rounded-up page multiple 4096 of the
requested size. -/
theorem bytes_aligned_capacity_counterexample :
    ¬ ((bytes_aligned 512 0 4096).cap % 4096 = 0 ∧
        (bytes_aligned 512 0 4096).cap = nextMultipleOf 512 4096) := by decide

/-- C6 (amended): `bytes_aligned` returns storage whose start address is on a
page boundary and whose capacity is at least the requested size — indeed at
least one full page more — though the capacity is not in general a page-size
multiple. -/
theorem bytes_aligned_contract (size base align : Nat) (ha : 0 < align) :
    (bytes_aligned size base align).addr % align = 0 ∧
    size + align ≤ (bytes_aligned size base align).cap := by
  have hoff : alignOffset base align < align := alignOffset_lt base align ha
  refine ⟨addr_add_alignOffset_mod base align ha, ?_⟩
  simp only [bytes_aligned]
  omega

/-- Witness for `bytes_aligned_contract` at size 512, base 3, page size 4096. -/
theorem bytes_aligned_contract_witness :
    0 < 4096 ∧
      ((bytes_aligned 512 3 4096).addr % 4096 = 0 ∧
        512 + 4096 ≤ (bytes_aligned 512 3 4096).cap) :=
  ⟨by decide, bytes_aligned_contract 512 3 4096 (by decide)⟩

/-- The fallible per-chunk file operations of `write_direct_io`, in program
order: `OpenOptions::open` (create/truncate, `O_DIRECT`), one `write_all`
(a short write surfaces here as `write_all`'s error), one `set_len`. -/
inductive FileOp
  | openFile
  | writeAll
  | setLength
deriving DecidableEq

/-- The ordered plan of fallible file operations the direct writer issues:
three per chunk, chunks in increasing order. -/
def opPlan (numChunks : Nat) : List (Nat × FileOp) :=
  (List.range numChunks).flatMap
    (fun i => [(i, FileOp.openFile), (i, FileOp.writeAll), (i, FileOp.setLength)])

/-- Run a plan of operations against a failure oracle.  Each operation's result
is `.unwrap()`ed in the source, so the first failing operation aborts the whole
run.  Returns the trace of attempted operations together with the outcome
(`Except.error op` models the panic carrying the failed operation). -/
def runPlan (fails : Nat × FileOp → Bool) :
    List (Nat × FileOp) → List (Nat × FileOp) × Except (Nat × FileOp) Unit
  | [] => ([], Except.ok ())
  | op :: rest =>
    if fails op then ([op], Except.error op)
    else
      let r := runPlan fails rest
      (op :: r.1, r.2)

/-- The function `write_direct_io`, seen through its fallible file operations. -/
def writeDirectRun (fails : Nat × FileOp → Bool) (numChunks : Nat) :
    List (Nat × FileOp) × Except (Nat × FileOp) Unit :=
  runPlan fails (opPlan numChunks)

/-- Function `main` in `Direct` mode: the writer's outcome propagates unchanged to the
top-level entry point (there is no handler anywhere on the path). -/
def mainDirectRun (fails : Nat × FileOp → Bool) (numChunks : Nat) :
    Except (Nat × FileOp) Unit :=
  (writeDirectRun fails numChunks).2

theorem runPlan_append_fail (fails : Nat × FileOp → Bool) :
    ∀ (pre : List (Nat × FileOp)) (op : Nat × FileOp) (post : List (Nat × FileOp)),
      (∀ q ∈ pre, fails q = false) → fails op = true →
      runPlan fails (pre ++ op :: post) = (pre ++ [op], Except.error op) := by
  intro pre
  induction pre with
  | nil =>
    intro op post _ hop
    simp [runPlan, hop]
  | cons q pre ih =>
    intro op post hpre hop
    have hq : fails q = false := hpre q (List.mem_cons_self q pre)
    have hrest := ih op post (fun r hr => hpre r (List.mem_cons_of_mem q hr)) hop
    simp [runPlan, hq, hrest]

/-- The plan never schedules the same operation twice: a failed operation can
not have been retried. -/
theorem opPlan_nodup (numChunks : Nat) : (opPlan numChunks).Nodup := by
  unfold opPlan
  rw [List.nodup_flatMap]
  constructor
  · intro i _
    simp
  · refine List.Pairwise.imp ?_ (List.nodup_range numChunks)
    intro a b hab
    simp only [List.Disjoint, List.mem_cons, List.mem_singleton]
    rintro x (rfl | rfl | rfl | h) <;> simp_all

/-- C7: if a per-chunk file operation fails (open, write — including a short
write — or truncate), the run aborts at once: the attempted-operation trace is
exactly the successful prefix followed by the failing operation (nothing after
it is attempted, nothing is skipped, and since the plan is duplicate-free the
operation was not retried), and the error propagates unchanged to `main`. -/
theorem direct_writer_fail_fast (fails : Nat × FileOp → Bool) (numChunks : Nat)
    (pre post : List (Nat × FileOp)) (op : Nat × FileOp)
    (hplan : opPlan numChunks = pre ++ op :: post)
    (hpre : ∀ q ∈ pre, fails q = false) (hop : fails op = true) :
    writeDirectRun fails numChunks = (pre ++ [op], Except.error op) ∧
    mainDirectRun fails numChunks = Except.error op ∧
    (pre ++ [op]).Nodup := by
  have hrun : writeDirectRun fails numChunks = (pre ++ [op], Except.error op) := by
    unfold writeDirectRun
    rw [hplan]
    exact runPlan_append_fail fails pre op post hpre hop
  refine ⟨hrun, by simp [mainDirectRun, hrun], ?_⟩
  have hnd : (pre ++ op :: post).Nodup := by rw [← hplan]; exact opPlan_nodup numChunks
  have : (pre ++ [op]).Sublist (pre ++ op :: post) := by
    apply List.Sublist.append_left
    simp
  exact List.Nodup.sublist this hnd

/-- Failure oracle for the witness: the `write_all` of chunk 1 fails. -/
def failsW : Nat × FileOp → Bool := fun op => decide (op = (1, FileOp.writeAll))

/-- Witness for `direct_writer_fail_fast`: two chunks, `write_all` of chunk 1
fails; the run stops right after it and `main` sees that error. -/
theorem direct_writer_fail_fast_witness :
    opPlan 2 = [(0, FileOp.openFile), (0, FileOp.writeAll), (0, FileOp.setLength),
        (1, FileOp.openFile)] ++ (1, FileOp.writeAll) :: [(1, FileOp.setLength)] ∧
    (∀ q ∈ [(0, FileOp.openFile), (0, FileOp.writeAll), (0, FileOp.setLength),
        (1, FileOp.openFile)], failsW q = false) ∧
    failsW (1, FileOp.writeAll) = true ∧
    (writeDirectRun failsW 2 = ([(0, FileOp.openFile), (0, FileOp.writeAll),
        (0, FileOp.setLength), (1, FileOp.openFile)] ++ [(1, FileOp.writeAll)],
        Except.error (1, FileOp.writeAll)) ∧
      mainDirectRun failsW 2 = Except.error (1, FileOp.writeAll) ∧
      ([(0, FileOp.openFile), (0, FileOp.writeAll), (0, FileOp.setLength),
        (1, FileOp.openFile)] ++ [(1, FileOp.writeAll)]).Nodup) :=
  ⟨by decide, by decide, by decide,
    direct_writer_fail_fast failsW 2
      [(0, FileOp.openFile), (0, FileOp.writeAll), (0, FileOp.setLength), (1, FileOp.openFile)]
      [(1, FileOp.setLength)] (1, FileOp.writeAll) (by decide) (by decide) (by decide)⟩

/-- What a failing `assert_eq!(left, right)` makes observable: the two unequal
values (the panic message also carries the assert's fixed source location, but
nothing that varies with the loop iteration). -/
structure MismatchReport where
  left : List Nat
  right : List Nat
deriving DecidableEq

deriving instance DecidableEq for Except

/-- One iteration of the Compare-mode loop body: retrieve region `i` from all
four stores, then the three `assert_eq!`s against the buffered store, in
source order. -/
def compareStep (bufS dirS dirZ dirZe : Nat → List Nat) (i : Nat) :
    Except MismatchReport Unit :=
  if bufS i ≠ dirS i then Except.error { left := bufS i, right := dirS i }
  else if bufS i ≠ dirZ i then Except.error { left := bufS i, right := dirZ i }
  else if bufS i ≠ dirZe i then Except.error { left := bufS i, right := dirZe i }
  else Except.ok ()

/-- The Compare-mode loop over a list of region indices: the trace of regions
compared, and the outcome; a failing assert aborts the loop at once. -/
def compareLoop (bufS dirS dirZ dirZe : Nat → List Nat) :
    List Nat → List Nat × Except MismatchReport Unit
  | [] => ([], Except.ok ())
  | i :: rest =>
    match compareStep bufS dirS dirZ dirZe i with
    | Except.error e => ([i], Except.error e)
    | Except.ok _ =>
      let r := compareLoop bufS dirS dirZ dirZe rest
      (i :: r.1, r.2)

/-- Function `main` in `Compare` mode: regions `0, 1, …, n-1` in increasing order
(`read_chunk = 1` and `for i in 0..65536` in the source). -/
def compareMode (bufS dirS dirZ dirZe : Nat → List Nat) (n : Nat) :
    List Nat × Except MismatchReport Unit :=
  compareLoop bufS dirS dirZ dirZe (List.range n)

/-- Stores for the C8 counterexample, scenario 1: mismatch already at region 0. -/
def storeA1 : Nat → List Nat := fun _ => [0]

/-- Scenario 1 partner store, differing everywhere. -/
def storeB1 : Nat → List Nat := fun _ => [1]

/-- Stores for the C8 counterexample, scenario 2: region 0 agrees, region 1
differs with the same byte contents as scenario 1's region 0. -/
def storeA2 : Nat → List Nat := fun i => if i = 0 then [7] else [0]

/-- Scenario 2 partner store. -/
def storeB2 : Nat → List Nat := fun i => if i = 0 then [7] else [1]

/-- C8 counterexample: two Compare runs whose first mismatches are at different
region indices (0 in scenario 1, 1 in scenario 2) produce the very same failure
report — so the report does not identify the offending index. -/
theorem compare_report_lacks_index :
    (compareMode storeA1 storeB1 storeA1 storeA1 2).2 =
      (compareMode storeA2 storeB2 storeA2 storeA2 2).2 ∧
    (compareMode storeA1 storeB1 storeA1 storeA1 2).1 = [0] ∧
    (compareMode storeA2 storeB2 storeA2 storeA2 2).1 = [0, 1] := by decide

/-- C8 (amended): the verifier retrieves each region from every store in
increasing index order and asserts byte-for-byte equality; it aborts on the
first region that differs, comparing no later region; the failure report
carries the differing byte contents (not the region index). -/
theorem compare_fail_fast (bufS dirS dirZ dirZe : Nat → List Nat) (n : Nat)
    (pre : List Nat) (i : Nat) (post : List Nat) (e : MismatchReport)
    (hrange : List.range n = pre ++ i :: post)
    (hpre : ∀ j ∈ pre, compareStep bufS dirS dirZ dirZe j = Except.ok ())
    (hi : compareStep bufS dirS dirZ dirZe i = Except.error e) :
    compareMode bufS dirS dirZ dirZe n = (pre ++ [i], Except.error e) ∧
    (pre ++ [i]) <+: List.range n := by
  constructor
  · unfold compareMode
    rw [hrange]
    clear hrange
    induction pre with
    | nil => simp [compareLoop, hi]
    | cons q pre ih =>
      have hq : compareStep bufS dirS dirZ dirZe q = Except.ok () :=
        hpre q (List.mem_cons_self q pre)
      have hrest := ih (fun r hr => hpre r (List.mem_cons_of_mem q hr))
      simp [compareLoop, hq, hrest]
  · rw [hrange]
    exact ⟨post, by simp⟩

/-- Witness for `compare_fail_fast`: scenario 2, where region 0 passes and
region 1 is the first mismatch. -/
theorem compare_fail_fast_witness :
    List.range 2 = [0] ++ 1 :: [] ∧
    (∀ j ∈ [0], compareStep storeA2 storeB2 storeA2 storeA2 j = Except.ok ()) ∧
    compareStep storeA2 storeB2 storeA2 storeA2 1 =
      Except.error { left := [0], right := [1] } ∧
    (compareMode storeA2 storeB2 storeA2 storeA2 2 = ([0] ++ [1],
        Except.error { left := [0], right := [1] }) ∧
      ([0] ++ [1]) <+: List.range 2) :=
  ⟨by decide, by decide, by decide,
    compare_fail_fast storeA2 storeB2 storeA2 storeA2 2 [0] 1 []
      { left := [0], right := [1] } (by decide) (by decide) (by decide)⟩

/-- A filesystem path, up to Rust `Path` equality: whether it is absolute, and
its normal components in order. -/
structure FsPath where
  absolute : Bool
  components : List String
deriving DecidableEq

/-- Split a character list at every separator character. -/
def splitSlash : List Char → List (List Char)
  | [] => [[]]
  | c :: cs =>
    if c = '/' then [] :: splitSlash cs
    else
      match splitSlash cs with
      | [] => [[c]]
      | p :: ps => (c :: p) :: ps

/-- The normal components of a path string: split on the separator and drop
empty pieces (exactly what Rust `Path::components` yields for plain relative
and absolute Unix paths). -/
def pathComponents (s : String) : List String :=
  ((splitSlash s.data).filter (fun c => c ≠ [])).map (fun cs => String.mk cs)

/-- Whether a path string is absolute (starts with the separator). -/
def isAbsolutePath (s : String) : Bool :=
  match s.data with
  | [] => false
  | c :: _ => c = '/'

/-- Rust `PathBuf::push` (and `Path::join`, which is push on a copy): an
absolute argument replaces the whole path, otherwise the argument's components
are appended. -/
def pathPush (p : FsPath) (s : String) : FsPath :=
  if isAbsolutePath s then { absolute := true, components := pathComponents s }
  else { p with components := p.components ++ pathComponents s }

/-- Source `key.as_str().strip_prefix('/').unwrap_or(key.as_str())`: remove one
leading separator when present. -/
def stripLeadingSlash (s : String) : String :=
  match s.data with
  | '/' :: rest => String.mk rest
  | _ => s

/-- Function `key_to_fspath(save_path, key)` from main.rs: for a non-empty key, push the
key (with a leading separator stripped) onto the store root. -/
def key_to_fspath (savePath : FsPath) (key : String) : FsPath :=
  if key = "" then savePath else pathPush savePath (stripLeadingSlash key)

/-- Modelled from the spec: `map_to_filesystem_path(store_root, key)` — strips
a leading separator from the key's textual form when one is present, and joins
the remainder to the store root (filesystem path join). -/
def map_to_filesystem_path (storeRoot : FsPath) (key : String) : FsPath :=
  pathPush storeRoot (stripLeadingSlash key)

theorem pathComponents_empty : pathComponents "" = [] := by decide

theorem stripLeadingSlash_empty : stripLeadingSlash "" = "" := by decide

theorem isAbsolutePath_empty : isAbsolutePath "" = false := by decide

/-- C9: for every store key, `key_to_fspath` agrees with the spec's
`map_to_filesystem_path`: it strips a leading separator from the key's textual
form and joins the remainder to the store root. -/
theorem key_to_fspath_matches_spec (savePath : FsPath) (key : String) :
    key_to_fspath savePath key = map_to_filesystem_path savePath key := by
  unfold key_to_fspath map_to_filesystem_path
  by_cases h : key = ""
  · subst h
    rw [if_pos rfl, stripLeadingSlash_empty]
    simp only [pathPush, isAbsolutePath_empty, Bool.false_eq_true, if_false,
      pathComponents_empty, List.append_nil]
  · rw [if_neg h]

/-- C10: the empty store key maps to the store root unchanged. -/
theorem key_to_fspath_empty_key (savePath : FsPath) :
    key_to_fspath savePath "" = savePath := by
  simp [key_to_fspath]

end DioProto
